import Mathlib

/-!
Shallow embedding of the conflict-of-interest detection core of the
Bd-Law-Assistant-Multi-Agent repository
(`src/bd_law_multi_agent/core/common.py`,
`src/bd_law_multi_agent/services/conflict_detection.py`,
`src/bd_law_multi_agent/workflows/conflict_workflow.py`,
`src/bd_law_multi_agent/api/v1/conflict_detection.py`).

Modelling conventions:
* Python `str` is modelled by Lean `String`; character-level work happens on
  `List Char` (`String.data`).  `str.lower` is modelled over the ASCII range
  (all string constants in the embedded code are ASCII).
* Python floats are modelled by `ℚ`; the arithmetic the code performs
  (halving, `min`, comparisons, `+ 0.1`) is exact at every concrete value a
  theorem below evaluates.
* Regular-expression search (`re.search` with `re.IGNORECASE`) is modelled by
  a small matcher over token sequences: the patterns in the source are
  alternations of literal words joined by `\s+`, with an optional trailing
  or embedded `\.`; `\s` is modelled by the ASCII whitespace characters.
* Fallible collaborators (the similarity index query, and — for the
  error-containment analysis — context extraction and the legal-context
  check) are modelled as `Except Unit`-valued functions packaged in an
  environment `Env`; the pure instantiation `realEnv` plugs in the
  concrete `extract_entity_context` / `is_meaningful_legal_entity`
  translations.
* Each `for`-loop body with `continue` statements is factored as an
  `Option`-returning step (`evalMatch`): `none` models `continue`, `some`
  models reaching the append at the end of the loop body.  The gate order
  inside the step is exactly the source's.
-/

namespace BdLaw

/-- Python `str.lower` on one character, over the ASCII range. -/
def lowerChar (c : Char) : Char :=
  if 'A' ≤ c ∧ c ≤ 'Z' then Char.ofNat (c.toNat + 32) else c

/-- Lowercase a character list. -/
def lowerList (l : List Char) : List Char := l.map lowerChar

/-- Python `str.lower` on a string (ASCII range). -/
def lowerStr (s : String) : String := ⟨lowerList s.data⟩

/-- Python `\s` / `str.strip` whitespace, over the ASCII range. -/
def isPySpace (c : Char) : Bool :=
  c = ' ' || c = '\t' || c = '\n' || c = '\r' || c = '\x0b' || c = '\x0c'

/-- Python slice `l[a:b]` for non-negative clamped bounds. -/
def pySlice (l : List Char) (a b : Nat) : List Char := (l.take b).drop a

/-- First index `≥ idx` (counting from the original start) at which `need`
occurs in the remaining list; `none` if it never does.  Models Python
`str.find(need)` when launched with the full list and `idx = 0`. -/
def findSubAux (need : List Char) : List Char → Nat → Option Nat
  | rest, idx =>
    if need.isPrefixOf rest then some idx
    else
      match rest with
      | [] => none
      | _ :: t => findSubAux need t (idx + 1)

/-- Python `hay.find(need, start)`: first occurrence of `need` at an index
`≥ start`, as an `Option`. -/
def findSubFrom (hay need : List Char) (start : Nat) : Option Nat :=
  findSubAux need (hay.drop start) start

/-- Last index `i < e` with `l[i] = c`, as an `Option`.  Models Python
`l.rfind(c, 0, e)` (indices at or beyond the length simply never match). -/
def rfindCharBefore (l : List Char) (c : Char) : Nat → Option Nat
  | 0 => none
  | e + 1 => if l.get? e = some c then some e else rfindCharBefore l c e

/-- Occurrence positions of `el` in `tl`, scanning left to right and
restarting `len el` characters after each hit — the `while True` /
`start = pos + len(entity)` loop of `extract_entity_context`.  `fuel`
bounds the iteration count; `tl.length + 1` is enough fuel whenever
`el ≠ []` (the Python loop does not terminate for an empty entity). -/
def occPositions (tl el : List Char) : Nat → Nat → List Nat
  | _, 0 => []
  | start, fuel + 1 =>
    match findSubFrom tl el start with
    | none => []
    | some pos => pos :: occPositions tl el (pos + el.length) fuel

/-! ### A tiny matcher for the fixed regular expressions of `common.py`

Every pattern appearing in `is_meaningful_legal_entity` is an alternation of
sequences built from literal words, `\s+`, and an optional dot `\.?`.  An
alternation is represented as a list of `Pat`s (the `for pattern in ...`
loops of the source try each alternative in turn, which is the same Boolean).
-/

/-- One token of a pattern: a literal word, `\s+`, or `\.?`. -/
inductive Tok where
  | word (w : List Char)
  | ws
  | optDot
deriving Repr, DecidableEq

/-- A pattern: a sequence of tokens, matched contiguously. -/
abbrev Pat := List Tok

/-- Fuel-indexed matcher (every recursive call strictly decreases
`ts.length + s.length`, so the wrapper's fuel never runs out): does the
token sequence match a prefix of `s`, with the backtracking semantics of
the regex engine — `\s+` consumes one or more whitespace characters,
`\.?` consumes an optional dot? -/
def matchToksF : Nat → List Tok → List Char → Bool
  | 0, _, _ => false
  | _ + 1, [], _ => true
  | fuel + 1, .word u :: ts, s => u.isPrefixOf s && matchToksF fuel ts (s.drop u.length)
  | fuel + 1, .optDot :: ts, s =>
    (match s with
     | '.' :: rest => matchToksF fuel ts rest
     | _ => false) || matchToksF fuel ts s
  | _ + 1, .ws :: _, [] => false
  | fuel + 1, .ws :: ts, c :: rest =>
    isPySpace c && (matchToksF fuel (.ws :: ts) rest || matchToksF fuel ts rest)

/-- Does the token sequence match a prefix of `s`? -/
def matchToks (ts : List Tok) (s : List Char) : Bool :=
  matchToksF (ts.length + s.length + 1) ts s

/-- `re.search`: does the pattern match starting at some position of `s`? -/
def searchPat (p : Pat) : List Char → Bool
  | [] => matchToks p []
  | c :: t => matchToks p (c :: t) || searchPat p t

/-- `re.search(p, s, re.IGNORECASE)` for an alternation of lowercase
patterns: search each alternative in the lowercased haystack. -/
def searchAnyIC (ps : List Pat) (s : List Char) : Bool :=
  ps.any (fun p => searchPat p (lowerList s))

/-- Shorthand for a literal-word token. -/
def w (s : String) : Tok := .word s.data

/-- The `legal_patterns` list of `is_meaningful_legal_entity`, with each
alternation flattened into its alternatives (the source loops over the
seven patterns and `re.search` tries the alternatives; the resulting
Boolean is the same). -/
def legal_patterns : List Pat :=
  [ [w "represented"], [w "client"], [w "party"], [w "representing"],
    [w "counsel"], [w "plaintiff"], [w "defendant"],
    [w "vs", .optDot], [w "versus"],
    [w "petitioner"], [w "respondent"],
    [w "witness"], [w "testimony"],
    [w "attorney"], [w "lawyer"], [w "law", .ws, w "firm"],
    [w "judge"], [w "justice"], [w "court", .ws, w "order"],
    [w "legal", .ws, w "proceeding"], [w "judgment"], [w "ruling"] ]

/-- The `state_patterns` list of the `"the state"` special case, with the
final `(plaintiff|defendant|respondent|petitioner)` alternation flattened. -/
def state_patterns : List Pat :=
  [ [w "the", .ws, w "state", .ws, w "vs", .optDot],
    [w "vs", .optDot, .ws, w "the", .ws, w "state"],
    [w "represented", .ws, w "by", .ws, w "the", .ws, w "state"],
    [w "the", .ws, w "state", .ws, w "as", .ws, w "plaintiff"],
    [w "the", .ws, w "state", .ws, w "as", .ws, w "defendant"],
    [w "the", .ws, w "state", .ws, w "as", .ws, w "respondent"],
    [w "the", .ws, w "state", .ws, w "as", .ws, w "petitioner"] ]

/-- `is_meaningful_legal_entity(entity, context)` from `core/common.py`:
the `"the state"` special case requires one of the fixed state phrases in
the context; every other entity must occur in the context and have one of
the legal-role patterns within ±200 characters of its position. -/
def is_meaningful_legal_entity (entity context : String) : Bool :=
  if lowerStr entity = "the state" then
    searchAnyIC state_patterns context.data
  else
    match findSubFrom (lowerList context.data) (lowerList entity.data) 0 with
    | none => false
    | some pos =>
      let window := 200
      let context_window :=
        pySlice context.data (pos - window)
          (min context.data.length (pos + entity.data.length + window))
      searchAnyIC legal_patterns context_window

/-- Pick the element of maximal length, first maximal element winning ties —
Python `max(contexts, key=len)` on a nonempty list. -/
def maxByLen (hd : List Char) (tl : List (List Char)) : List Char :=
  tl.foldl (fun acc x => if acc.length < x.length then x else acc) hd

/-- Sentence start used by `extract_entity_context`:
`max(0, text.rfind('.', 0, max(0, pos-100)) + 1)` — one past the last `'.'`
occurring before index `pos - 100`, or `0` when there is none. -/
def sentenceStart (text : List Char) (pos : Nat) : Nat :=
  match rfindCharBefore text '.' (pos - 100) with
  | some i => i + 1
  | none => 0

/-- Sentence end used by `extract_entity_context`:
`text.find('.', min(len(text), pos+100))`, replaced by
`min(len(text), pos + 300)` when there is no such `'.'`. -/
def sentenceEnd (text : List Char) (pos : Nat) : Nat :=
  match findSubFrom text ['.'] (min text.length (pos + 100)) with
  | some j => j
  | none => min text.length (pos + 300)

/-- `extract_entity_context(text, entity)` from `core/common.py`.  Finds the
case-insensitive occurrences of the entity; with no occurrence returns the
first 300 characters; otherwise builds a window for each of the first two
occurrences from `sentenceStart`/`sentenceEnd` and returns the longest
(with the source's `or`-fallback for an empty best window).  Faithful to
the Python for every nonempty entity (the Python loop diverges on `""`). -/
def extract_entity_context (text entity : String) : String :=
  let tl := lowerList text.data
  let el := lowerList entity.data
  match occPositions tl el 0 (tl.length + 1) with
  | [] => ⟨text.data.take 300⟩
  | p0 :: rest =>
    let contexts := ((p0 :: rest).take 2).map (fun pos =>
      pySlice text.data (sentenceStart text.data pos)
        (sentenceEnd text.data pos + 1))
    let best := maxByLen (contexts.headD []) contexts.tail
    if best.isEmpty then
      ⟨pySlice text.data (p0 - 150)
        (min text.data.length (p0 + entity.data.length + 150))⟩
    else ⟨best⟩

/-- The context-extraction rule as the specification words it (for
comparison with the source's `extract_entity_context`): expand each of the
first two occurrences "to sentence boundaries — scanning backward to the
previous `.` within 100 chars, forward to the next `.` within 100 chars,
default window extension of up to 300 chars if no boundary found", choose
the longest window, and fall back to the first 300 characters when the
entity is not found. -/
def extract_entity_context_spec (text entity : String) : String :=
  let tl := lowerList text.data
  let el := lowerList entity.data
  match occPositions tl el 0 (tl.length + 1) with
  | [] => ⟨text.data.take 300⟩
  | p0 :: rest =>
    let contexts := ((p0 :: rest).take 2).map (fun pos =>
      let sStart :=
        match rfindCharBefore text.data '.' pos with
        | some i => if pos - 100 ≤ i then i + 1 else pos - 300
        | none => pos - 300
      let sEnd :=
        match findSubFrom text.data ['.'] pos with
        | some j => if j ≤ pos + 100 then j else min text.data.length (pos + 300)
        | none => min text.data.length (pos + 300)
      pySlice text.data sStart (sEnd + 1))
    let best := maxByLen (contexts.headD []) contexts.tail
    if best.isEmpty then
      ⟨pySlice text.data (p0 - 150)
        (min text.data.length (p0 + entity.data.length + 150))⟩
    else ⟨best⟩

/-- Whitespace-run collapsing of `re.sub(r'\s+', ' ', text)`: the flag says
whether the previous character was whitespace (i.e. we are inside a run). -/
def collapseWsAux : Bool → List Char → List Char
  | _, [] => []
  | prevWs, c :: t =>
    if isPySpace c then
      if prevWs then collapseWsAux true t else ' ' :: collapseWsAux true t
    else c :: collapseWsAux false t

/-- Python `str.strip()` (ASCII whitespace). -/
def stripList (l : List Char) : List Char :=
  ((l.dropWhile isPySpace).reverse.dropWhile isPySpace).reverse

/-- A character kept by `re.sub(r'[^\w\s.,-]', '', ...)`: word characters
(`[A-Za-z0-9_]` over ASCII), whitespace, and `.`/`,`/`-`. -/
def isKeptChar (c : Char) : Bool :=
  c.isAlphanum || c = '_' || isPySpace c || c = '.' || c = ',' || c = '-'

/-- `sanitize_context(text)` from `core/common.py` with its default
`max_length = 200`. -/
def sanitize_context (text : String) : String :=
  let cleaned := stripList (collapseWsAux false text.data)
  let cleaned := cleaned.filter isKeptChar
  if cleaned.length > 200 then ⟨cleaned.take 200 ++ "...".data⟩ else ⟨cleaned⟩

/-! ### The conflict evaluator `check_conflicts_in_raw_cases` -/

/-- The metadata keys a search hit's chunk may carry, as read by
`check_conflicts_in_raw_cases` (each read uses `metadata.get` with the
source's default, hence the `Option` fields). -/
structure Metadata where
  source : Option String
  unique_id : Option String
  document_type : Option String
  file_source : Option String
  created_at : Option String
deriving Repr, DecidableEq

/-- One element of the list returned by
`analysis_db.search_with_scores`: either not a `dict` (skipped by the
`isinstance` guard) or a `dict` giving content, metadata and raw score. -/
inductive RawResult where
  | notDict
  | dict (content : String) (metadata : Metadata) (score : ℚ)
deriving Repr, DecidableEq

/-- The conflict dictionary appended to the `conflicts` list (the
`case_details` sub-dictionary is flattened into the last three fields). -/
structure ConflictRecord where
  entity : String
  matched_document : String
  document_type : String
  similarity_score : ℚ
  context : String
  case_id : String
  case_name : String
  date : String
deriving Repr, DecidableEq

/-- The collaborators of `check_conflicts_in_raw_cases`: the similarity
index (`get_document_count` and `search_with_scores`, the latter possibly
raising — `.error` — or returning a possibly-`None` list), and the two
per-match helpers, wrapped in `Except` because the source guards each call
with its own `try`/`except`.  `realEnv` below instantiates the helpers with
the pure translations. -/
structure Env where
  docCount : Nat
  search : String → Nat → Except Unit (Option (List RawResult))
  ctxFn : String → String → Except Unit String
  legalFn : String → String → Except Unit Bool

/-- The mutable state of one evaluation: the `conflicts` accumulator, the
`matched_documents` set (as a list), and — for stating "no query was
issued" — the log of `search_with_scores` calls actually made. -/
structure EvalState where
  conflicts : List ConflictRecord
  matched : List String
  queries : List (String × Nat)
deriving Repr, DecidableEq

/-- The score normalization of `check_conflicts_in_raw_cases`:
`min(score / 2.0, 1.0) if score > 1.0 else score`. -/
def normalizeScore (score : ℚ) : ℚ :=
  if score > 1 then min (score / 2) 1 else score

/-- The `common_legal_entities` set. -/
def common_legal_entities : List String := ["the state", "government", "supreme court"]

/-- The per-entity effective threshold:
`similarity_threshold + 0.1 if entity.lower() in common_legal_entities
else similarity_threshold`. -/
def effThreshold (similarity_threshold : ℚ) (entity : String) : ℚ :=
  if lowerStr entity ∈ common_legal_entities then similarity_threshold + 1/10
  else similarity_threshold

/-- The `generic_terms` set of `check_conflicts_in_raw_cases`. -/
def generic_terms : List String :=
  [ "the", "and", "of", "to", "court", "law", "case", "file",
    "district", "summary", "background", "events", "conclusion",
    "legal", "current", "status", "local residents", "government",
    "state", "police", "lawyers", "journalists", "district court",
    "legal battle", "law enforcement", "local authorities",
    "community", "human rights" ]

/-- The entity pre-filter:
`e.lower() not in generic_terms and len(e) > 4`. -/
def keepEntity (e : String) : Bool :=
  !(generic_terms.contains (lowerStr e)) && e.data.length > 4

/-- One iteration of the `for result in results` loop, up to the final
append: `none` models any of the `continue` paths, `some rec` models
reaching the append.  The gates appear in the source's order: the
`isinstance` check, score normalization with the `[0,1]` validity check
(an out-of-range value raises and is caught — skipped, not clamped), the
threshold comparison, the document-type / self-id / dedup validation, the
guarded context extraction (empty context skips, an exception skips), and
the guarded legal check. -/
def evalMatch (env : Env) (current_file_id entity : String) (tEff : ℚ)
    (matched : List String) : RawResult → Option ConflictRecord
  | .notDict => none
  | .dict content metadata score =>
    let ns := normalizeScore score
    if ¬(0 ≤ ns ∧ ns ≤ 1) then none
    else if ns < tEff then none
    else
      let doc_id := metadata.source.getD "Unknown"
      let unique_id := metadata.unique_id.getD ""
      if metadata.document_type ≠ some "RawCase" ∨ current_file_id = unique_id
          ∨ doc_id ∈ matched then none
      else
        match env.ctxFn content entity with
        | .error _ => none
        | .ok context =>
          if context = "" then none
          else
            match env.legalFn entity context with
            | .error _ => none
            | .ok meaningful =>
              if meaningful then
                some { entity := entity
                       matched_document := doc_id
                       document_type := "RawCase"
                       similarity_score := ns
                       context := sanitize_context context
                       case_id := doc_id
                       case_name := metadata.file_source.getD "Unknown"
                       date := metadata.created_at.getD "Unknown" }
              else none

/-- Fold step over one search hit: append the record and mark the document
when `evalMatch` reaches the end of the loop body, otherwise leave the
state unchanged. -/
def processResult (env : Env) (current_file_id entity : String) (tEff : ℚ)
    (st : EvalState) (r : RawResult) : EvalState :=
  match evalMatch env current_file_id entity tEff st.matched r with
  | none => st
  | some rec =>
    { st with conflicts := st.conflicts ++ [rec]
              matched := st.matched ++ [rec.matched_document] }

/-- One iteration of the `for entity in specific_entities` loop: compute
`k` and the effective threshold, issue the query (logged), and on success
fold over the returned hits; the enclosing `try`/`except` turns a raising
query into a no-op for this entity. -/
def processEntity (env : Env) (similarity_threshold : ℚ)
    (current_file_id : String) (st : EvalState) (entity : String) : EvalState :=
  let k := min 3 env.docCount
  let tEff := effThreshold similarity_threshold entity
  let st := { st with queries := st.queries ++ [(entity, k)] }
  match env.search entity k with
  | .error _ => st
  | .ok results =>
    (results.getD []).foldl (processResult env current_file_id entity tEff) st

/-- `check_conflicts_in_raw_cases`, instrumented: returns the full final
state (records, matched set, query log).  The two early returns (`doc_count
== 0`, empty `specific_entities`) leave the initial state untouched. -/
def checkConflictsFull (env : Env) (entities : List String)
    (similarity_threshold : ℚ) (current_file_id : String) : EvalState :=
  if env.docCount = 0 then ⟨[], [], []⟩
  else
    let specific_entities := entities.filter keepEntity
    if specific_entities.isEmpty then ⟨[], [], []⟩
    else
      specific_entities.foldl
        (processEntity env similarity_threshold current_file_id) ⟨[], [], []⟩

/-- `check_conflicts_in_raw_cases(entities, similarity_threshold,
current_file_id)`: the list of conflict records returned to the caller. -/
def check_conflicts_in_raw_cases (env : Env) (entities : List String)
    (similarity_threshold : ℚ) (current_file_id : String) : List ConflictRecord :=
  (checkConflictsFull env entities similarity_threshold current_file_id).conflicts

/-- The environment of the deployed code: context extraction and the legal
check are the pure functions of `core/common.py` (they are wrapped in
`try`/`except` in the source but cannot raise), while the index state is
given by a document count and a query function. -/
def realEnv (docCount : Nat)
    (search : String → Nat → Option (List RawResult)) : Env :=
  { docCount := docCount
    search := fun e k => .ok (search e k)
    ctxFn := fun content entity => .ok (extract_entity_context content entity)
    legalFn := fun entity context => .ok (is_meaningful_legal_entity entity context) }

/-! ### `generate_conflict_explanation` (services/conflict_detection.py) -/

/-- Two-digit decimal rendering of a non-negative numerator of hundredths. -/
def fmtHundredths (m : Nat) : String :=
  let frac := m % 100
  toString (m / 100) ++ "." ++ (if frac < 10 then "0" else "") ++ toString frac

/-- Python `format(x, '.2f')` modelled over `ℚ` (round to hundredths; exact
at every value the embedded records carry). -/
def fmt2 (q : ℚ) : String :=
  let n : ℤ := round (q * 100)
  if n < 0 then "-" ++ fmtHundredths (-n).toNat else fmtHundredths n.toNat

/-- Insert one record into the `docs_to_conflicts` grouping, preserving
first-seen key order (Python dict insertion order). -/
def addToGroups (gs : List (String × List ConflictRecord)) (c : ConflictRecord) :
    List (String × List ConflictRecord) :=
  if gs.any (fun g => g.1 = c.matched_document) then
    gs.map (fun g =>
      if g.1 = c.matched_document then (g.1, g.2 ++ [c]) else g)
  else gs ++ [(c.matched_document, [c])]

/-- The `docs_to_conflicts` dictionary built from the conflicts list. -/
def docsToConflicts (conflicts : List ConflictRecord) :
    List (String × List ConflictRecord) :=
  conflicts.foldl addToGroups []

/-- The per-conflict lines of the fallback text. -/
def renderConflictLines (c : ConflictRecord) : String :=
  "- Entity: " ++ c.entity ++ "\n" ++
  "- Similarity: " ++ fmt2 c.similarity_score ++ "\n" ++
  "- Case: " ++ c.case_name ++ "\n" ++
  "- Context: " ++ c.context ++ "\n\n"

/-- The deterministic fallback text built in the `except` handler of
`generate_conflict_explanation`: warning header, then one block per matched
document with the per-conflict entity/score/case/context lines. -/
def renderFallback (gs : List (String × List ConflictRecord)) : String :=
  "⚠️ POTENTIAL CONFLICTS OF INTEREST DETECTED ⚠️\n\n" ++
  String.join (gs.map (fun g =>
    "Conflicts with '" ++ g.1 ++ "':\n" ++
    String.join (g.2.map renderConflictLines)))

/-- The two prompts `generate_conflict_explanation` can send to the LLM. -/
inductive ExplPrompt where
  | noConflict
  | conflictList (conflicts : List ConflictRecord)

/-- The Python exception that escapes `generate_conflict_explanation`:
the `except` handler iterates `docs_to_conflicts.items()`, but on the
empty-conflicts path that local was never assigned, so the handler itself
raises `UnboundLocalError`. -/
inductive PyError where
  | unboundLocal
deriving Repr, DecidableEq

/-- `generate_conflict_explanation(conflicts)` from
`services/conflict_detection.py`, with the LLM call as a possibly-failing
collaborator.  Empty conflicts: return the LLM's no-conflict message, but an
LLM failure is caught by a handler that immediately reads the unassigned
`docs_to_conflicts` local — the call raises `UnboundLocalError`.  Non-empty
conflicts: build the grouping, ask the LLM, and on failure return the
deterministic fallback text. -/
def generate_conflict_explanation (llm : ExplPrompt → Except Unit String)
    (conflicts : List ConflictRecord) : Except PyError String :=
  if conflicts.isEmpty then
    match llm .noConflict with
    | .ok s => .ok s
    | .error _ => .error .unboundLocal
  else
    let groups := docsToConflicts conflicts
    match llm (.conflictList conflicts) with
    | .ok s => .ok s
    | .error _ => .ok (renderFallback groups)

/-! ### `detect_conflicts` (workflows/conflict_workflow.py) and the
HTTP endpoint's threshold validation (api/v1/conflict_detection.py) -/

/-- `detect_conflicts(file_content, file_name, similarity_threshold)`:
the threshold guard runs before anything else — with
`similarity_threshold < 0.65` the `ValueError` (modelled as `.error` with
the source's message) is raised without touching the workflow, which is
abstracted as a continuation `runWorkflow`. -/
def detect_conflicts {α : Type} (runWorkflow : ℚ → α)
    (similarity_threshold : ℚ) : Except String α :=
  if similarity_threshold < 13/20 then
    .error "Threshold too low (<0.65) for reliable conflict detection"
  else .ok (runWorkflow similarity_threshold)

/-- The FastAPI query-parameter validation of the `/check` endpoint:
`Query(0.85, ge=0.0, le=1.0)` accepts any threshold in `[0, 1]`. -/
def endpointAccepts (t : ℚ) : Bool := decide (0 ≤ t) && decide (t ≤ 1)

/-! ## Supporting lemmas -/

/-- A predicate preserved by every fold step holds of the fold. -/
theorem foldl_preserve {α β : Type} {P : α → Prop} {f : α → β → α}
    (hf : ∀ a b, P a → P (f a b)) :
    ∀ (l : List β) (a : α), P a → P (l.foldl f a) := by
  intro l
  induction l with
  | nil => intro a ha; exact ha
  | cons b t ih => intro a ha; exact ih _ (hf a b ha)

theorem rfindCharBefore_some {l : List Char} {c : Char} :
    ∀ {e i : Nat}, rfindCharBefore l c e = some i →
      i < e ∧ l.get? i = some c ∧ ∀ j, i < j → j < e → l.get? j ≠ some c := by
  intro e
  induction e with
  | zero => intro i h; simp [rfindCharBefore] at h
  | succ e ih =>
    intro i h
    unfold rfindCharBefore at h
    split at h
    · rename_i hc
      injection h with h
      subst h
      exact ⟨Nat.lt_succ_self _, hc, fun j hj hj' => absurd hj' (by omega)⟩
    · rename_i hc
      obtain ⟨h1, h2, h3⟩ := ih h
      refine ⟨by omega, h2, fun j hj hj' => ?_⟩
      rcases Nat.lt_or_ge j e with hlt | hge
      · exact h3 j hj hlt
      · have : j = e := by omega
        subst this; exact hc

theorem rfindCharBefore_none {l : List Char} {c : Char} :
    ∀ {e : Nat}, rfindCharBefore l c e = none →
      ∀ j, j < e → l.get? j ≠ some c := by
  intro e
  induction e with
  | zero => intro _ j hj; omega
  | succ e ih =>
    intro h j hj
    unfold rfindCharBefore at h
    split at h
    · exact absurd h (by simp)
    · rename_i hc
      rcases Nat.lt_or_ge j e with hlt | hge
      · exact ih h j hlt
      · have : j = e := by omega
        subst this; exact hc

theorem findSubAux_some {need : List Char} :
    ∀ {rest : List Char} {idx j : Nat}, findSubAux need rest idx = some j →
      idx ≤ j ∧ need.isPrefixOf (rest.drop (j - idx)) ∧
        ∀ k, idx ≤ k → k < j → ¬ need.isPrefixOf (rest.drop (k - idx)) := by
  intro rest
  induction rest with
  | nil =>
    intro idx j h
    unfold findSubAux at h
    by_cases hp : need.isPrefixOf ([] : List Char)
    · simp [hp] at h
      subst h
      exact ⟨Nat.le_refl _, by simpa using hp, fun k hk hk' => by omega⟩
    · simp [hp] at h
  | cons a t ih =>
    intro idx j h
    unfold findSubAux at h
    by_cases hp : need.isPrefixOf (a :: t)
    · simp [hp] at h
      subst h
      exact ⟨Nat.le_refl _, by simpa using hp, fun k hk hk' => by omega⟩
    · simp [hp] at h
      obtain ⟨h1, h2, h3⟩ := ih h
      have hij : idx < j := by omega
      refine ⟨by omega, ?_, ?_⟩
      · have : j - idx = (j - (idx + 1)) + 1 := by omega
        rw [this]
        simpa using h2
      · intro k hk hk'
        rcases Nat.eq_or_lt_of_le hk with heq | hlt
        · subst heq
          simpa using hp
        · have : k - idx = (k - (idx + 1)) + 1 := by omega
          rw [this]
          simpa using h3 k hlt hk'

theorem findSubAux_none {need : List Char} :
    ∀ {rest : List Char} {idx : Nat}, findSubAux need rest idx = none →
      ∀ k, idx ≤ k → ¬ need.isPrefixOf (rest.drop (k - idx)) := by
  intro rest
  induction rest with
  | nil =>
    intro idx h k hk
    unfold findSubAux at h
    by_cases hp : need.isPrefixOf ([] : List Char)
    · simp [hp] at h
    · simpa using hp
  | cons a t ih =>
    intro idx h k hk
    unfold findSubAux at h
    by_cases hp : need.isPrefixOf (a :: t)
    · simp [hp] at h
    · simp [hp] at h
      rcases Nat.eq_or_lt_of_le hk with heq | hlt
      · subst heq
        simpa using hp
      · have : k - idx = (k - (idx + 1)) + 1 := by omega
        rw [this]
        simpa using ih h k hlt

/-- A singleton pattern is a prefix of `l.drop m` exactly when the character
at index `m` is that character. -/
theorem singleton_isPrefixOf_drop {l : List Char} {c : Char} {m : Nat} :
    ([c].isPrefixOf (l.drop m)) = true ↔ l.get? m = some c := by
  have hhead : l.get? m = (l.drop m).head? := by
    cases hd : l.drop m with
    | nil =>
      have hlen : l.length ≤ m := by
        have := List.length_drop m l
        rw [hd] at this
        simp at this
        omega
      simp [hd, List.get?_eq_none]
      omega
    | cons x xs =>
      have : (l.drop m).get? 0 = l.get? (m + 0) := List.get?_drop l m 0
      rw [hd] at this
      simpa using this.symm
  rw [hhead]
  cases hd : l.drop m with
  | nil => simp [List.isPrefixOf]
  | cons x xs =>
    simp [List.isPrefixOf]
    exact eq_comm

theorem findSubFrom_char_some {l : List Char} {c : Char} {s j : Nat}
    (h : findSubFrom l [c] s = some j) :
    s ≤ j ∧ l.get? j = some c ∧ ∀ k, s ≤ k → k < j → l.get? k ≠ some c := by
  unfold findSubFrom at h
  obtain ⟨h1, h2, h3⟩ := findSubAux_some h
  rw [List.drop_drop] at h2
  have hj : s + (j - s) = j := by omega
  rw [hj] at h2
  refine ⟨h1, singleton_isPrefixOf_drop.mp h2, fun k hk hk' => ?_⟩
  intro hc
  apply h3 k hk hk'
  rw [List.drop_drop]
  have hk2 : s + (k - s) = k := by omega
  rw [hk2]
  exact singleton_isPrefixOf_drop.mpr hc

theorem findSubFrom_char_none {l : List Char} {c : Char} {s : Nat}
    (h : findSubFrom l [c] s = none) :
    ∀ k, s ≤ k → l.get? k ≠ some c := by
  intro k hk hc
  unfold findSubFrom at h
  apply findSubAux_none h k hk
  rw [List.drop_drop]
  have hks : s + (k - s) = k := by omega
  rw [hks]
  exact singleton_isPrefixOf_drop.mpr hc

/-- Everything true of a search hit that reaches the record-append: the
facts established by the gates of the `for result in results` loop body. -/
theorem evalMatch_some_facts {env : Env} {cfid entity : String} {tEff : ℚ}
    {matched : List String} {r : RawResult} {rec : ConflictRecord}
    (h : evalMatch env cfid entity tEff matched r = some rec) :
    ∃ content md score context,
      r = .dict content md score ∧
      rec.similarity_score = normalizeScore score ∧
      0 ≤ rec.similarity_score ∧ rec.similarity_score ≤ 1 ∧
      tEff ≤ rec.similarity_score ∧
      rec.matched_document = md.source.getD "Unknown" ∧
      rec.matched_document ∉ matched ∧
      cfid ≠ md.unique_id.getD "" ∧
      md.document_type = some "RawCase" ∧
      env.ctxFn content entity = .ok context ∧
      context ≠ "" ∧
      env.legalFn entity context = .ok true := by
  cases r with
  | notDict => simp [evalMatch] at h
  | dict content md score =>
    unfold evalMatch at h
    simp only at h
    split at h
    · exact absurd h (by simp)
    · rename_i hrange
      split at h
      · exact absurd h (by simp)
      · rename_i hthresh
        split at h
        · exact absurd h (by simp)
        · rename_i hvalid
          push_neg at hrange hvalid
          obtain ⟨htyp, huid, hdoc⟩ := hvalid
          cases hctx : env.ctxFn content entity with
          | error e => rw [hctx] at h; simp at h
          | ok context =>
            rw [hctx] at h
            simp only at h
            split at h
            · exact absurd h (by simp)
            · rename_i hne
              cases hleg : env.legalFn entity context with
              | error e => rw [hleg] at h; simp at h
              | ok mf =>
                rw [hleg] at h
                simp only at h
                split at h
                · rename_i hmf
                  injection h with h
                  subst h
                  refine ⟨content, md, score, context, rfl, rfl, hrange.1, hrange.2,
                    not_lt.mp hthresh, rfl, hdoc, huid, htyp, hctx, hne, ?_⟩
                  rw [hleg, hmf]
                · exact absurd h (by simp)

/-- A failing (or empty-context, or rejected) gate gives no record: the
state is returned unchanged. -/
theorem processResult_cases (env : Env) (cfid entity : String) (tEff : ℚ)
    (st : EvalState) (r : RawResult) :
    processResult env cfid entity tEff st r = st ∨
    ∃ rec, evalMatch env cfid entity tEff st.matched r = some rec ∧
      processResult env cfid entity tEff st r =
        { st with conflicts := st.conflicts ++ [rec]
                  matched := st.matched ++ [rec.matched_document] } := by
  unfold processResult
  cases h : evalMatch env cfid entity tEff st.matched r with
  | none => left; rfl
  | some rec => right; exact ⟨rec, rfl, rfl⟩

/-- The score-bounds invariant on the accumulated records. -/
def ScoresInRange (st : EvalState) : Prop :=
  ∀ rec ∈ st.conflicts, 0 ≤ rec.similarity_score ∧ rec.similarity_score ≤ 1

/-- The dedup invariant: accumulated records have pairwise distinct matched
documents, each already registered in the matched set. -/
def DedupInv (st : EvalState) : Prop :=
  (st.conflicts.map (fun rec => rec.matched_document)).Nodup ∧
  ∀ rec ∈ st.conflicts, rec.matched_document ∈ st.matched

theorem processResult_scores {env : Env} {cfid entity : String} {tEff : ℚ}
    {st : EvalState} {r : RawResult} (hst : ScoresInRange st) :
    ScoresInRange (processResult env cfid entity tEff st r) := by
  rcases processResult_cases env cfid entity tEff st r with heq | ⟨rec, hm, heq⟩
  · rw [heq]; exact hst
  · rw [heq]
    intro rec' hrec'
    rcases List.mem_append.mp hrec' with hold | hnew
    · exact hst rec' hold
    · have : rec' = rec := by simpa using hnew
      subst this
      obtain ⟨_, _, _, _, _, _, h0, h1, _⟩ := evalMatch_some_facts hm
      exact ⟨h0, h1⟩

theorem processResult_dedup {env : Env} {cfid entity : String} {tEff : ℚ}
    {st : EvalState} {r : RawResult} (hst : DedupInv st) :
    DedupInv (processResult env cfid entity tEff st r) := by
  rcases processResult_cases env cfid entity tEff st r with heq | ⟨rec, hm, heq⟩
  · rw [heq]; exact hst
  · rw [heq]
    obtain ⟨hnd, hmem⟩ := hst
    obtain ⟨_, _, _, _, _, _, _, _, _, _, hnotin, _⟩ := evalMatch_some_facts hm
    constructor
    · rw [List.map_append]
      simp only [List.map_cons, List.map_nil]
      rw [List.nodup_append]
      refine ⟨hnd, List.nodup_singleton _, ?_⟩
      intro d hd
      simp only [List.mem_singleton]
      intro hdr
      subst hdr
      obtain ⟨rec', hrec', hrd⟩ := List.mem_map.mp hd
      exact hnotin (hrd ▸ hmem rec' hrec')
    · intro rec' hrec'
      rcases List.mem_append.mp hrec' with hold | hnew
      · exact List.mem_append_left _ (hmem rec' hold)
      · have : rec' = rec := by simpa using hnew
        subst this
        exact List.mem_append_right _ (by simp)

theorem processEntity_scores {env : Env} {t : ℚ} {cfid : String}
    {st : EvalState} {entity : String} (hst : ScoresInRange st) :
    ScoresInRange (processEntity env t cfid st entity) := by
  unfold processEntity
  dsimp only
  have hst' : ScoresInRange { st with queries := st.queries ++ [(entity, min 3 env.docCount)] } := hst
  cases h : env.search entity (min 3 env.docCount) with
  | error e => exact hst'
  | ok results =>
    exact foldl_preserve (fun a b ha => processResult_scores ha) _ _ hst'

theorem processEntity_dedup {env : Env} {t : ℚ} {cfid : String}
    {st : EvalState} {entity : String} (hst : DedupInv st) :
    DedupInv (processEntity env t cfid st entity) := by
  unfold processEntity
  dsimp only
  have hst' : DedupInv { st with queries := st.queries ++ [(entity, min 3 env.docCount)] } := hst
  cases h : env.search entity (min 3 env.docCount) with
  | error e => exact hst'
  | ok results =>
    exact foldl_preserve (fun a b ha => processResult_dedup ha) _ _ hst'

theorem checkConflictsFull_scores (env : Env) (entities : List String)
    (t : ℚ) (cfid : String) :
    ScoresInRange (checkConflictsFull env entities t cfid) := by
  unfold checkConflictsFull
  split
  · intro rec h; simp at h
  · dsimp only
    split
    · intro rec h; simp at h
    · exact foldl_preserve (fun a b ha => processEntity_scores ha) _ _
        (fun rec h => by simp at h)

theorem checkConflictsFull_dedup (env : Env) (entities : List String)
    (t : ℚ) (cfid : String) :
    DedupInv (checkConflictsFull env entities t cfid) := by
  unfold checkConflictsFull
  split
  · exact ⟨by simp, fun rec h => by simp at h⟩
  · dsimp only
    split
    · exact ⟨by simp, fun rec h => by simp at h⟩
    · exact foldl_preserve (fun a b ha => processEntity_dedup ha) _ _
        ⟨by simp, fun rec h => by simp at h⟩

/-! Error-containment lemmas: each guarded step that fails leaves the
state unchanged, and the query log never influences later processing. -/

theorem evalMatch_uid_skip {env : Env} {cfid entity : String} {tEff : ℚ}
    {matched : List String} {content : String} {md : Metadata} {score : ℚ}
    (h : md.unique_id.getD "" = cfid) :
    evalMatch env cfid entity tEff matched (.dict content md score) = none := by
  unfold evalMatch
  dsimp only
  split
  · rfl
  · split
    · rfl
    · split
      · rfl
      · rename_i hvalid
        exact absurd (Or.inr (Or.inl h.symm)) hvalid

theorem evalMatch_ctx_error {env : Env} {cfid entity : String} {tEff : ℚ}
    {matched : List String} {content : String} {md : Metadata} {score : ℚ}
    (hctx : env.ctxFn content entity = .error ()) :
    evalMatch env cfid entity tEff matched (.dict content md score) = none := by
  unfold evalMatch
  dsimp only
  split
  · rfl
  · split
    · rfl
    · split
      · rfl
      · rw [hctx]

theorem evalMatch_legal_error {env : Env} {cfid entity : String} {tEff : ℚ}
    {matched : List String} {content : String} {md : Metadata} {score : ℚ}
    {context : String}
    (hctx : env.ctxFn content entity = .ok context)
    (hleg : env.legalFn entity context = .error ()) :
    evalMatch env cfid entity tEff matched (.dict content md score) = none := by
  unfold evalMatch
  dsimp only
  split
  · rfl
  · split
    · rfl
    · split
      · rfl
      · rw [hctx]
        dsimp only
        split
        · rfl
        · rw [hleg]

theorem processResult_of_none {env : Env} {cfid entity : String} {tEff : ℚ}
    {st : EvalState} {r : RawResult}
    (h : evalMatch env cfid entity tEff st.matched r = none) :
    processResult env cfid entity tEff st r = st := by
  unfold processResult
  rw [h]

theorem processResult_queries (env : Env) (cfid entity : String) (tEff : ℚ)
    (st : EvalState) (r : RawResult) :
    (processResult env cfid entity tEff st r).queries = st.queries := by
  rcases processResult_cases env cfid entity tEff st r with heq | ⟨rec, _, heq⟩ <;>
    rw [heq]

theorem processResult_congr {env : Env} {cfid entity : String} {tEff : ℚ}
    {st st' : EvalState} (hc : st.conflicts = st'.conflicts)
    (hm : st.matched = st'.matched) (r : RawResult) :
    (processResult env cfid entity tEff st r).conflicts =
      (processResult env cfid entity tEff st' r).conflicts ∧
    (processResult env cfid entity tEff st r).matched =
      (processResult env cfid entity tEff st' r).matched := by
  unfold processResult
  rw [hm]
  cases h : evalMatch env cfid entity tEff st'.matched r with
  | none => exact ⟨hc, hm⟩
  | some rec => exact ⟨by simp [hc], by simp [hm]⟩

theorem foldResults_congr {env : Env} {cfid entity : String} {tEff : ℚ} :
    ∀ (rs : List RawResult) (st st' : EvalState),
      st.conflicts = st'.conflicts → st.matched = st'.matched →
      (rs.foldl (processResult env cfid entity tEff) st).conflicts =
        (rs.foldl (processResult env cfid entity tEff) st').conflicts ∧
      (rs.foldl (processResult env cfid entity tEff) st).matched =
        (rs.foldl (processResult env cfid entity tEff) st').matched := by
  intro rs
  induction rs with
  | nil => exact fun st st' hc hm => ⟨hc, hm⟩
  | cons r rs ih =>
    intro st st' hc hm
    obtain ⟨hc', hm'⟩ := processResult_congr hc hm r
    exact ih _ _ hc' hm'

theorem processEntity_congr {env : Env} {t : ℚ} {cfid : String}
    {st st' : EvalState} (hc : st.conflicts = st'.conflicts)
    (hm : st.matched = st'.matched) (entity : String) :
    (processEntity env t cfid st entity).conflicts =
      (processEntity env t cfid st' entity).conflicts ∧
    (processEntity env t cfid st entity).matched =
      (processEntity env t cfid st' entity).matched := by
  unfold processEntity
  dsimp only
  cases h : env.search entity (min 3 env.docCount) with
  | error e => exact ⟨hc, hm⟩
  | ok results => exact foldResults_congr _ _ _ hc hm

theorem foldEntities_congr {env : Env} {t : ℚ} {cfid : String} :
    ∀ (l : List String) (st st' : EvalState),
      st.conflicts = st'.conflicts → st.matched = st'.matched →
      (l.foldl (processEntity env t cfid) st).conflicts =
        (l.foldl (processEntity env t cfid) st').conflicts ∧
      (l.foldl (processEntity env t cfid) st).matched =
        (l.foldl (processEntity env t cfid) st').matched := by
  intro l
  induction l with
  | nil => exact fun st st' hc hm => ⟨hc, hm⟩
  | cons e l ih =>
    intro st st' hc hm
    obtain ⟨hc', hm'⟩ := processEntity_congr hc hm e
    exact ih _ _ hc' hm'

theorem processEntity_search_error {env : Env} {t : ℚ} {cfid : String}
    {st : EvalState} {entity : String}
    (h : env.search entity (min 3 env.docCount) = .error ()) :
    processEntity env t cfid st entity =
      { st with queries := st.queries ++ [(entity, min 3 env.docCount)] } := by
  unfold processEntity
  dsimp only
  rw [h]

/-! ## Claim theorems -/

/-- C1: a raw score above 1.0 is normalized to `min(raw/2, 1)` and any other
raw score is used unchanged; a match whose normalized score falls outside
`[0,1]` is skipped (state unchanged), never clamped; every record returned
by `check_conflicts_in_raw_cases` carries a score in `[0,1]`; and a raw
score of 1.4 normalizes to exactly 0.7, which passes a 0.7 threshold. -/
theorem score_normalization_c1 :
    (∀ s : ℚ, (1 < s → normalizeScore s = min (s / 2) 1) ∧
      (s ≤ 1 → normalizeScore s = s)) ∧
    (∀ (env : Env) (cfid entity : String) (tEff : ℚ) (st : EvalState)
        (content : String) (md : Metadata) (score : ℚ),
        ¬(0 ≤ normalizeScore score ∧ normalizeScore score ≤ 1) →
        processResult env cfid entity tEff st (.dict content md score) = st) ∧
    (∀ (env : Env) (entities : List String) (t : ℚ) (cfid : String),
        ∀ rec ∈ check_conflicts_in_raw_cases env entities t cfid,
          0 ≤ rec.similarity_score ∧ rec.similarity_score ≤ 1) ∧
    (normalizeScore (14/10) = 7/10 ∧ ¬((7/10 : ℚ) < 7/10)) := by
  refine ⟨fun s => ⟨fun h => ?_, fun h => ?_⟩, ?_, ?_, ?_, ?_⟩
  · unfold normalizeScore
    rw [if_pos h]
  · unfold normalizeScore
    rw [if_neg (not_lt.mpr h)]
  · intro env cfid entity tEff st content md score hbad
    apply processResult_of_none
    unfold evalMatch
    dsimp only
    split
    · rfl
    · rename_i hok
      exact absurd hbad (not_not.mpr (not_not.mp hok))
  · intro env entities t cfid rec hrec
    exact checkConflictsFull_scores env entities t cfid rec hrec
  · unfold normalizeScore
    rw [if_pos (by norm_num)]
    norm_num [min_def]
  · norm_num

/-- C1 witness: the two normalization branches applied at concrete scores. -/
theorem score_normalization_c1_witness :
    normalizeScore (14/10 : ℚ) = min ((14/10 : ℚ) / 2) 1 ∧
    normalizeScore (1/2 : ℚ) = 1/2 :=
  ⟨(score_normalization_c1.1 (14/10)).1 (by norm_num),
   (score_normalization_c1.1 (1/2)).2 (by norm_num)⟩

/-- C2: in any single evaluation, no two returned conflict records share a
`matched_document` value — the matched-documents set dedups across the
whole call, for any entities, threshold, exclude id, and index state. -/
theorem dedup_by_document_c2 (env : Env) (entities : List String) (t : ℚ)
    (cfid : String) :
    ((check_conflicts_in_raw_cases env entities t cfid).map
      (fun rec => rec.matched_document)).Nodup :=
  (checkConflictsFull_dedup env entities t cfid).1

/-- C4: the entity pre-filter keeps exactly the entities whose lowercase
form avoids the generic-term list and whose length exceeds 4; and whenever
the index is empty or nothing survives the filter, the evaluator returns
the untouched initial state — empty conflicts and an empty query log (no
similarity-index query was issued). -/
theorem early_return_c4 :
    (∀ e : String, keepEntity e = true ↔
      (lowerStr e ∉ generic_terms ∧ 4 < e.data.length)) ∧
    (∀ (env : Env) (entities : List String) (t : ℚ) (cfid : String),
        env.docCount = 0 ∨ (entities.filter keepEntity).isEmpty = true →
        checkConflictsFull env entities t cfid = ⟨[], [], []⟩) := by
  constructor
  · intro e
    simp [keepEntity]
  · intro env entities t cfid h
    unfold checkConflictsFull
    rcases h with h0 | hfilt
    · rw [if_pos h0]
    · split
      · rfl
      · dsimp only
        rw [if_pos hfilt]

/-- C4 witness: a purely generic entity list returns the untouched state
without querying a nonempty index. -/
theorem early_return_c4_witness :
    checkConflictsFull
      ⟨3, fun _ _ => .ok none, fun _ _ => .ok "", fun _ _ => .ok false⟩
      ["the", "court", "law"] (17/20) "f" = ⟨[], [], []⟩ :=
  early_return_c4.2 _ _ _ _ (Or.inr (by decide))

/-- C5: the effective threshold is the supplied threshold plus 0.1 exactly
for the common legal actors ("the state", "government", "supreme court",
case-insensitively) and the supplied threshold otherwise; consequently
"the state" at normalized score 0.6 against supplied threshold 0.85
produces no conflict record. -/
theorem threshold_adjustment_c5 :
    (∀ (t : ℚ) (e : String), lowerStr e ∈ common_legal_entities →
        effThreshold t e = t + 1/10) ∧
    (∀ (t : ℚ) (e : String), lowerStr e ∉ common_legal_entities →
        effThreshold t e = t) ∧
    check_conflicts_in_raw_cases
      (realEnv 1 (fun _ _ => some [.dict "The State vs. John Doe"
        ⟨some "X", some "Y", some "RawCase", some "F", some "D"⟩ (3/5)]))
      ["the state"] (17/20) "doc" = [] := by
  refine ⟨fun t e h => ?_, fun t e h => ?_, ?_⟩
  · unfold effThreshold
    rw [if_pos h]
  · unfold effThreshold
    rw [if_neg h]
  · with_unfolding_all decide

/-- C5 witness: both threshold branches applied at concrete entities. -/
theorem threshold_adjustment_c5_witness :
    effThreshold (17/20 : ℚ) "The State" = 17/20 + 1/10 ∧
    effThreshold (17/20 : ℚ) "Karim Sheikh" = 17/20 :=
  ⟨threshold_adjustment_c5.1 _ _ (by decide),
   threshold_adjustment_c5.2.1 _ _ (by decide)⟩

/-- C3 counterexample: the self-exclusion gate compares `current_file_id`
with the chunk's `unique_id` metadata, while `matched_document` is taken
from the `source` metadata — so a chunk whose `source` is the current file
id but whose `unique_id` differs yields a record with
`matched_document = current_file_id`. -/
theorem no_self_conflict_c3_counterexample :
    (check_conflicts_in_raw_cases
      (realEnv 1 (fun _ _ => some [.dict
        "Karim Sheikh, counsel for the defendant, argued the case."
        ⟨some "X", some "Y", some "RawCase", some "F", some "D"⟩ 1]))
      ["Karim Sheikh"] (7/10) "X").map (fun rec => rec.matched_document)
      = ["X"] := by
  with_unfolding_all decide

/-- C3 (amended): the self-exclusion keys on the chunk's `unique_id`
metadata: a match whose `unique_id` (defaulting to `""`) equals
`current_file_id` is always skipped; `matched_document` itself — the
`source` metadata — is not compared against `current_file_id`. -/
theorem no_self_conflict_c3_amended :
    ∀ (env : Env) (cfid entity : String) (tEff : ℚ) (matched : List String)
      (content : String) (md : Metadata) (score : ℚ),
      md.unique_id.getD "" = cfid →
      evalMatch env cfid entity tEff matched (.dict content md score) = none :=
  fun _ _ _ _ _ _ _ _ h => evalMatch_uid_skip h

/-- C3 witness: a chunk carrying the current file id as its `unique_id` is
skipped. -/
theorem no_self_conflict_c3_witness :
    evalMatch (realEnv 0 (fun _ _ => none)) "U1" "Karim Sheikh" 1 []
      (.dict "text" ⟨some "S", some "U1", some "RawCase", none, none⟩ 1)
      = none :=
  no_self_conflict_c3_amended _ _ _ _ _ _ _ _ (by decide)

/-- C6: a match yields a record only when the guarded context extraction
succeeds and the legal-significance check accepts (`.ok true`); the
concrete checker requires one of the fixed state phrases for "the state"
(case-insensitively), fails whenever any other entity does not occur in
the context, and otherwise accepts exactly when one of the legal-role
patterns matches within 200 characters on each side of the entity's
position. -/
theorem legal_gate_c6 :
    (∀ (env : Env) (cfid entity : String) (tEff : ℚ) (matched : List String)
        (r : RawResult) (rec : ConflictRecord),
        evalMatch env cfid entity tEff matched r = some rec →
        ∃ content md score context, r = RawResult.dict content md score ∧
          env.ctxFn content entity = .ok context ∧
          env.legalFn entity context = .ok true) ∧
    (∀ entity context : String, lowerStr entity = "the state" →
        (is_meaningful_legal_entity entity context = true ↔
          searchAnyIC state_patterns context.data = true)) ∧
    (∀ entity context : String, lowerStr entity ≠ "the state" →
        findSubFrom (lowerList context.data) (lowerList entity.data) 0 = none →
        is_meaningful_legal_entity entity context = false) ∧
    (∀ (entity context : String) (pos : Nat), lowerStr entity ≠ "the state" →
        findSubFrom (lowerList context.data) (lowerList entity.data) 0 = some pos →
        (is_meaningful_legal_entity entity context = true ↔
          searchAnyIC legal_patterns
            (pySlice context.data (pos - 200)
              (min context.data.length (pos + entity.data.length + 200)))
            = true)) := by
  refine ⟨?_, ?_, ?_, ?_⟩
  · intro env cfid entity tEff matched r rec h
    obtain ⟨content, md, score, context, hr, _, _, _, _, _, _, _, _, hctx, _, hleg⟩ :=
      evalMatch_some_facts h
    exact ⟨content, md, score, context, hr, hctx, hleg⟩
  · intro entity context h
    unfold is_meaningful_legal_entity
    rw [if_pos h]
  · intro entity context h hfind
    unfold is_meaningful_legal_entity
    rw [if_neg h, hfind]
  · intro entity context pos h hfind
    unfold is_meaningful_legal_entity
    rw [if_neg h, hfind]

/-- C6 witness: the state-phrase branch accepting, and the not-found branch
rejecting, at concrete inputs. -/
theorem legal_gate_c6_witness :
    (is_meaningful_legal_entity "the state" "The State vs. John Doe" = true ↔
      searchAnyIC state_patterns ("The State vs. John Doe").data = true) ∧
    is_meaningful_legal_entity "Acme Corporation" "no occurrence here" = false :=
  ⟨legal_gate_c6.2.1 _ _ (by decide),
   legal_gate_c6.2.2.1 _ _ (by decide) (by decide)⟩

/-- C8: a failing index query skips exactly that entity (only its query-log
entry remains; no records, no matched marks), a failing context extraction
or legal check skips exactly that match (state unchanged), and a skipped
entity leaves the processing of every other entity — and the final
records — untouched; the evaluator itself is a total function, so no
per-entity error reaches the caller. -/
theorem error_containment_c8 :
    (∀ (env : Env) (t : ℚ) (cfid : String) (st : EvalState) (entity : String),
        env.search entity (min 3 env.docCount) = .error () →
        processEntity env t cfid st entity =
          { st with queries := st.queries ++ [(entity, min 3 env.docCount)] }) ∧
    (∀ (env : Env) (cfid entity : String) (tEff : ℚ) (st : EvalState)
        (content : String) (md : Metadata) (score : ℚ),
        env.ctxFn content entity = .error () →
        processResult env cfid entity tEff st (.dict content md score) = st) ∧
    (∀ (env : Env) (cfid entity : String) (tEff : ℚ) (st : EvalState)
        (content context : String) (md : Metadata) (score : ℚ),
        env.ctxFn content entity = .ok context →
        env.legalFn entity context = .error () →
        processResult env cfid entity tEff st (.dict content md score) = st) ∧
    (∀ (env : Env) (t : ℚ) (cfid : String) (st : EvalState) (entity : String)
        (l1 l2 : List String),
        env.search entity (min 3 env.docCount) = .error () →
        ((l1 ++ entity :: l2).foldl (processEntity env t cfid) st).conflicts =
          ((l1 ++ l2).foldl (processEntity env t cfid) st).conflicts ∧
        ((l1 ++ entity :: l2).foldl (processEntity env t cfid) st).matched =
          ((l1 ++ l2).foldl (processEntity env t cfid) st).matched) := by
  refine ⟨?_, ?_, ?_, ?_⟩
  · intro env t cfid st entity h
    exact processEntity_search_error h
  · intro env cfid entity tEff st content md score h
    exact processResult_of_none (evalMatch_ctx_error h)
  · intro env cfid entity tEff st content context md score hctx hleg
    exact processResult_of_none (evalMatch_legal_error hctx hleg)
  · intro env t cfid st entity l1 l2 h
    rw [List.foldl_append, List.foldl_append, List.foldl_cons]
    exact foldEntities_congr l2 _ _
      (by rw [processEntity_search_error h])
      (by rw [processEntity_search_error h])

/-- C8 witness: a raising search skips the entity, leaving only its query
in the log. -/
theorem error_containment_c8_witness :
    processEntity ⟨2, fun _ _ => .error (), fun _ _ => .error (),
        fun _ _ => .error ()⟩ 1 "f" ⟨[], [], []⟩ "Karim Sheikh" =
      { conflicts := [], matched := [],
        queries := [] ++ [("Karim Sheikh", min 3 2)] } :=
  error_containment_c8.1 _ _ _ _ _ rfl

/-- C9 (code bug): with a raising LLM, `generate_conflict_explanation`
returns the deterministic fallback string for a non-empty conflicts list,
but for the EMPTY list the `except` handler reads the never-assigned
`docs_to_conflicts` local and the call raises `UnboundLocalError` instead
of returning a string. -/
theorem explanation_fallback_c9 :
    generate_conflict_explanation (fun _ => .error ()) [] =
      .error .unboundLocal ∧
    generate_conflict_explanation (fun _ => .error ())
      [{ entity := "Karim Sheikh", matched_document := "X",
         document_type := "RawCase", similarity_score := 7/10,
         context := "ctx", case_id := "X", case_name := "F", date := "D" }] =
      .ok ("⚠️ POTENTIAL CONFLICTS OF INTEREST DETECTED ⚠️\n\n" ++
        "Conflicts with 'X':\n- Entity: Karim Sheikh\n- Similarity: 0.70\n" ++
        "- Case: F\n- Context: ctx\n\n") := by
  constructor
  · rfl
  · with_unfolding_all rfl

/-- C10: `detect_conflicts` rejects every threshold strictly below 0.65
with the `ValueError` message before invoking any workflow step (the
result is the same for every workflow), never rejects a threshold at or
above 0.65, and yet the HTTP endpoint's own validation accepts any
threshold in `[0, 1]` — e.g. 0.5, which `detect_conflicts` then rejects. -/
theorem threshold_validation_c10 :
    (∀ (α : Type) (wf : ℚ → α) (t : ℚ), t < 13/20 →
        detect_conflicts wf t =
          .error "Threshold too low (<0.65) for reliable conflict detection") ∧
    (∀ (α : Type) (wf : ℚ → α) (t : ℚ), 13/20 ≤ t →
        detect_conflicts wf t = .ok (wf t)) ∧
    (∀ (α : Type) (wf wf' : ℚ → α) (t : ℚ), t < 13/20 →
        detect_conflicts wf t = detect_conflicts wf' t) ∧
    (endpointAccepts (1/2) = true ∧
      detect_conflicts (fun t => t) (1/2 : ℚ) =
        .error "Threshold too low (<0.65) for reliable conflict detection") := by
  refine ⟨?_, ?_, ?_, ?_, ?_⟩
  · intro α wf t h
    unfold detect_conflicts
    rw [if_pos h]
  · intro α wf t h
    unfold detect_conflicts
    rw [if_neg (not_lt.mpr h)]
  · intro α wf wf' t h
    unfold detect_conflicts
    rw [if_pos h, if_pos h]
  · unfold endpointAccepts
    norm_num
  · unfold detect_conflicts
    rw [if_pos (by norm_num)]

/-- C10 witness: the guard applied at 0.5 (rejected) and 0.85 (passed). -/
theorem threshold_validation_c10_witness :
    detect_conflicts (fun t => t) (1/2 : ℚ) =
      .error "Threshold too low (<0.65) for reliable conflict detection" ∧
    detect_conflicts (fun t => t) (17/20 : ℚ) = .ok (17/20 : ℚ) :=
  ⟨threshold_validation_c10.1 ℚ _ _ (by norm_num),
   threshold_validation_c10.2.1 ℚ _ _ (by norm_num)⟩

/-- C7 counterexample: the claimed rule ("previous `.` within 100
characters") starts the window just after the period 14 characters before
the occurrence, but the source's `rfind('.', 0, pos-100)` only sees periods
more than 100 characters back, so the code returns the whole text — the two
rules disagree at this input. -/
theorem context_window_c7_counterexample :
    extract_entity_context ".The defendant Rahim Uddin appeared" "Rahim Uddin" =
      ".The defendant Rahim Uddin appeared" ∧
    extract_entity_context_spec ".The defendant Rahim Uddin appeared" "Rahim Uddin" =
      "The defendant Rahim Uddin appeared" ∧
    extract_entity_context_spec ".The defendant Rahim Uddin appeared" "Rahim Uddin" ≠
      extract_entity_context ".The defendant Rahim Uddin appeared" "Rahim Uddin" := by
  refine ⟨?_, ?_, ?_⟩ <;> decide

/-- C7 (amended): with no case-insensitive occurrence the first 300
characters are returned; otherwise each of the first two occurrences gets
the window from `sentenceStart` to `sentenceEnd` (longest wins, with the
source's fallback for an empty best).  The backward boundary is one past
the last `.` occurring MORE than 100 characters before the occurrence
(text start when none) — the window always keeps the 100 characters
preceding the occurrence; the forward boundary is the first `.` at or
beyond 100 characters past the occurrence, however far away, and only when
none exists is it 300 characters past the occurrence (clamped to the text
end). -/
theorem context_window_c7_amended :
    (∀ text entity : String,
        findSubFrom (lowerList text.data) (lowerList entity.data) 0 = none →
        extract_entity_context text entity = ⟨text.data.take 300⟩) ∧
    (∀ (text entity : String) (p : Nat) (ps : List Nat),
        occPositions (lowerList text.data) (lowerList entity.data) 0
          ((lowerList text.data).length + 1) = p :: ps →
        extract_entity_context text entity =
          (let contexts := ((p :: ps).take 2).map (fun pos =>
            pySlice text.data (sentenceStart text.data pos)
              (sentenceEnd text.data pos + 1))
           let best := maxByLen (contexts.headD []) contexts.tail
           if best.isEmpty then
             ⟨pySlice text.data (p - 150)
               (min text.data.length (p + entity.data.length + 150))⟩
           else ⟨best⟩)) ∧
    (∀ (l : List Char) (pos : Nat),
        sentenceStart l pos ≤ pos - 100 ∧
        ((sentenceStart l pos = 0 ∧
            ∀ j, j < pos - 100 → l.get? j ≠ some '.') ∨
         (∃ i, sentenceStart l pos = i + 1 ∧ i < pos - 100 ∧
            l.get? i = some '.' ∧
            ∀ j, i < j → j < pos - 100 → l.get? j ≠ some '.'))) ∧
    (∀ (l : List Char) (pos : Nat),
        min l.length (pos + 100) ≤ sentenceEnd l pos ∧
        ((l.get? (sentenceEnd l pos) = some '.' ∧
            ∀ k, min l.length (pos + 100) ≤ k → k < sentenceEnd l pos →
              l.get? k ≠ some '.') ∨
         (sentenceEnd l pos = min l.length (pos + 300) ∧
            ∀ k, min l.length (pos + 100) ≤ k → l.get? k ≠ some '.'))) := by
  refine ⟨?_, ?_, ?_, ?_⟩
  · intro text entity hnone
    unfold extract_entity_context
    dsimp only
    rw [show occPositions (lowerList text.data) (lowerList entity.data) 0
          ((lowerList text.data).length + 1) = [] from by
        unfold occPositions; rw [hnone]]
  · intro text entity p ps hocc
    unfold extract_entity_context
    dsimp only
    rw [hocc]
  · intro l pos
    unfold sentenceStart
    cases hr : rfindCharBefore l '.' (pos - 100) with
    | none =>
      exact ⟨Nat.zero_le _, Or.inl ⟨rfl, rfindCharBefore_none hr⟩⟩
    | some i =>
      obtain ⟨h1, h2, h3⟩ := rfindCharBefore_some hr
      dsimp only
      exact ⟨by omega, Or.inr ⟨i, rfl, h1, h2, h3⟩⟩
  · intro l pos
    unfold sentenceEnd
    cases hf : findSubFrom l ['.'] (min l.length (pos + 100)) with
    | none =>
      refine ⟨min_le_min (Nat.le_refl _) (by omega), Or.inr ⟨rfl, ?_⟩⟩
      exact findSubFrom_char_none hf
    | some j =>
      obtain ⟨h1, h2, h3⟩ := findSubFrom_char_some hf
      exact ⟨h1, Or.inl ⟨h2, h3⟩⟩

/-- C7 witness: the no-occurrence fallback and a found-occurrence window at
concrete inputs, plus both boundary characterizations at a concrete
position. -/
theorem context_window_c7_witness :
    extract_entity_context "short text with a period. here" "Zorro Quux" =
      ⟨("short text with a period. here").data.take 300⟩ ∧
    (sentenceStart ("a.b").data 2 ≤ 2 - 100 ∧
      ((sentenceStart ("a.b").data 2 = 0 ∧
          ∀ j, j < 2 - 100 → ("a.b").data.get? j ≠ some '.') ∨
       (∃ i, sentenceStart ("a.b").data 2 = i + 1 ∧ i < 2 - 100 ∧
          ("a.b").data.get? i = some '.' ∧
          ∀ j, i < j → j < 2 - 100 → ("a.b").data.get? j ≠ some '.'))) :=
  ⟨context_window_c7_amended.1 _ _ (by decide),
   context_window_c7_amended.2.2.1 ("a.b").data 2⟩

end BdLaw
